import Mathlib

/-!
Verification of the UH course-text-extraction scrapers against their
natural-language specification.

The development shallowly embeds the relevant Python functions:

* `src/Honolulu Community College/pdf_extractor.py`
  (`deduplicate_courses`, `extract_courses_from_page`,
  `validate_and_fix_courses`, `save_incremental_results`, the page loop and
  final phase of `extract_courses_from_pdf`);
* `src/University of Hawaii at Manoa/manoa_scraper.py` (`crawl_courses`,
  `extract_single_course`, `save_to_json`);
* `src/Kauai Community College/web_scraper.py` (`crawl_courses`).

External collaborators (the Gemini generation service, `json.loads`, the
Selenium renderer, catalog page contents) are parameters of the embedded
functions; everything else is translated from the source.
-/

namespace CourseText

/-! ## Python value model (HCC `pdf_extractor.py`)

Course dicts produced by `json.loads` of the LLM response hold strings,
numbers or `None`.  A course is a Python dict, modelled as an association
list in insertion order. -/

inductive PyVal where
  | none : PyVal
  | str (s : String) : PyVal
  | num (n : Int) : PyVal
  deriving DecidableEq, Repr

/-- A course dict (`{'course_prefix': ..., 'course_number': ..., ...}`). -/
def Course := List (String × PyVal)

instance : DecidableEq Course := inferInstanceAs (DecidableEq (List (String × PyVal)))
instance : Repr Course := inferInstanceAs (Repr (List (String × PyVal)))

/-- Python `str(value)` for the values an f-string can receive here:
`str(None) = "None"`, strings unchanged, ints printed. -/
def pyStr : PyVal → String
  | .none => "None"
  | .str s => s
  | .num n => toString n

/-- Python `s.startswith(pre)`: `pre` is a prefix of the character sequence. -/
def pyStartswith (s pre : String) : Bool :=
  pre.data.isPrefixOf s.data

/-- Python `len(s)`. -/
def pyLen (s : String) : Nat := s.data.length

/-- Python `c in s` for a single character `c`. -/
def pyContainsChar (s : String) (c : Char) : Bool := s.data.contains c

/-- Python `s.lower()` (ASCII case folding, all the placeholder tokens need). -/
def pyLower (s : String) : String := String.mk (s.data.map Char.toLower)

/-- Python `course.get(key, default)`. -/
def dictGet (c : Course) (key : String) (default : PyVal) : PyVal :=
  match c.find? (fun kv => kv.1 = key) with
  | some kv => kv.2
  | Option.none => default

/-! ## `deduplicate_courses` (pdf_extractor.py lines 231-244)

```python
seen = set()
unique_courses = []
for course in courses:
    course_key = f"{course.get('course_prefix', '')}-{course.get('course_number', '')}"
    if course_key not in seen:
        seen.add(course_key)
        unique_courses.append(course)
return unique_courses
``` -/

/-- The string key `f"{course.get('course_prefix','')}-{course.get('course_number','')}"`. -/
def courseKey (c : Course) : String :=
  pyStr (dictGet c "course_prefix" (.str "")) ++ "-" ++ pyStr (dictGet c "course_number" (.str ""))

/-- The natural key as a pair (prefix, number), as rendered into the dedup key. -/
def hccKeyPair (c : Course) : String × String :=
  (pyStr (dictGet c "course_prefix" (.str "")), pyStr (dictGet c "course_number" (.str "")))

/-- The loop of `deduplicate_courses`, with the `seen` set made explicit. -/
def dedupAux (seen : List String) : List Course → List Course
  | [] => []
  | c :: rest =>
    if courseKey c ∈ seen then dedupAux seen rest
    else c :: dedupAux (courseKey c :: seen) rest

def deduplicate_courses (courses : List Course) : List Course :=
  dedupAux [] courses

/-! ## Page loop of `extract_courses_from_pdf` (lines 293-343) -/

/-- Python `lst[-n:]`. -/
def takeLast {α : Type} (n : Nat) (l : List α) : List α :=
  l.drop (l.length - n)

/-- Python `overlap_courses = all_courses[-2:] if len(all_courses) >= 2 else None` (line 301). -/
def overlapOf (all_courses : List Course) : Option (List Course) :=
  if 2 ≤ all_courses.length then some (takeLast 2 all_courses) else Option.none

/-- The per-page extraction step (`extract_courses_from_page`), abstracted as an
oracle over (page text, context pages, recent courses, overlap courses). -/
def PageExtractor := String → List String → List Course → Option (List Course) → List Course

structure LoopState where
  all_courses : List Course
  context_pages : List String
  recent_courses : List Course
  deriving Repr

/-- The `if courses:` body (lines 319-329): extend, rededuplicate, extend the
recent-courses context. -/
def pageMerge (st : LoopState) (courses : List Course) : LoopState :=
  if courses.isEmpty then st
  else
    { st with
      all_courses := deduplicate_courses (st.all_courses ++ courses)
      recent_courses := st.recent_courses ++ courses }

/-- One iteration of the `for i, page_text in enumerate(pages_text, 1)` loop
(lines 297-343), without the logging and the checkpoint write. -/
def processPage (extract : PageExtractor) (st : LoopState) (page_text : String) : LoopState :=
  let overlap := overlapOf st.all_courses
  let context_for_page := if st.context_pages.isEmpty then [] else takeLast 3 st.context_pages
  let recent_for_page := if st.recent_courses.isEmpty then [] else takeLast 5 st.recent_courses
  let courses := extract page_text context_for_page recent_for_page overlap
  let st := pageMerge st courses
  let ctx := st.context_pages ++ [page_text]
  let ctx := if ctx.length > 3 then takeLast 3 ctx else ctx
  let rec' := if st.recent_courses.length > 5 then takeLast 5 st.recent_courses else st.recent_courses
  { st with context_pages := ctx, recent_courses := rec' }

/-- The whole page loop, starting from empty accumulators (lines 293-295). -/
def runPages (extract : PageExtractor) (pages : List String) : LoopState :=
  pages.foldl (processPage extract) ⟨[], [], []⟩

/-! ## Concrete overlap scenario (spec §8, «Overlap convergence») -/

def otherCourse : Course :=
  [("course_prefix", .str "XYZ"), ("course_number", .str "1"),
   ("course_title", .str "Other"), ("course_desc", .str "d")]

def partialACC : Course :=
  [("course_prefix", .str "ACC"), ("course_number", .str "124"),
   ("course_title", .str "X"), ("course_desc", .str "")]

def updatedACC : Course :=
  [("course_prefix", .str "ACC"), ("course_number", .str "124"),
   ("course_title", .str "X"), ("course_desc", .str "Intro to accounting")]

/-- A deterministic extraction oracle realising the spec's two-unit overlap
scenario: page "p1" yields two records, the second partial; page "p2",
whose overlap context contains the partial record, yields the completed
update with the same natural key. -/
def c1Extract : PageExtractor := fun page _ _ _ =>
  if page = "p1" then [otherCourse, partialACC]
  else if page = "p2" then [updatedACC]
  else []

/-! ## Lemmas about `dedupAux` -/

/-- Everything `dedupAux` keeps has a key outside `seen` and is the first
element of the input with its key. -/
theorem dedupAux_spec (l : List Course) :
    ∀ (seen : List String) (c : Course), c ∈ dedupAux seen l →
      courseKey c ∉ seen ∧ l.find? (fun d => courseKey d == courseKey c) = some c := by
  induction l with
  | nil => intro seen c h; simp [dedupAux] at h
  | cons c' rest ih =>
    intro seen c h
    by_cases hk : courseKey c' ∈ seen
    · rw [dedupAux, if_pos hk] at h
      obtain ⟨hns, hfind⟩ := ih seen c h
      have hne : (courseKey c' == courseKey c) = false := by
        rcases h' : courseKey c' == courseKey c with _ | _
        · rfl
        · exact absurd (of_decide_eq_true h' ▸ hk) hns
      exact ⟨hns, by rw [List.find?_cons_of_neg _ (by simp [hne]), hfind]⟩
    · rw [dedupAux, if_neg hk] at h
      rcases List.mem_cons.mp h with hc | hc
      · subst hc
        exact ⟨hk, List.find?_cons_of_pos _ (by simp)⟩
      · obtain ⟨hns, hfind⟩ := ih (courseKey c' :: seen) c hc
        have hne : courseKey c' ≠ courseKey c := fun he => hns (he ▸ List.mem_cons_self _ _)
        refine ⟨fun hmem => hns (List.mem_cons_of_mem _ hmem), ?_⟩
        rw [List.find?_cons_of_neg _ (by simp [hne]), hfind]

/-- The output of `dedupAux` has pairwise distinct keys. -/
theorem dedupAux_pairwise (l : List Course) :
    ∀ seen : List String,
      (dedupAux seen l).Pairwise (fun a b => courseKey a ≠ courseKey b) := by
  induction l with
  | nil => intro seen; simp [dedupAux]
  | cons c' rest ih =>
    intro seen
    by_cases hk : courseKey c' ∈ seen
    · rw [dedupAux, if_pos hk]; exact ih seen
    · rw [dedupAux, if_neg hk]
      refine List.Pairwise.cons ?_ (ih _)
      intro b hb
      have := (dedupAux_spec rest _ b hb).1
      exact fun he => this (he ▸ List.mem_cons_self _ _)

/-- C1 (counterexample): In the spec's own overlap scenario the later,
completed observation of `ACC 124` is *dropped* by `deduplicate_courses`
(first occurrence wins): the committed set keeps the earlier record whose
description is empty, even though page "p2"'s overlap context contained the
partial record and its extraction returned the completed update. -/
theorem c1_counterexample :
    overlapOf (runPages c1Extract ["p1"]).all_courses = some [otherCourse, partialACC]
    ∧ c1Extract "p2" [] [] (some [otherCourse, partialACC]) = [updatedACC]
    ∧ courseKey updatedACC = courseKey partialACC
    ∧ dictGet updatedACC "course_desc" (.str "") = .str "Intro to accounting"
    ∧ (runPages c1Extract ["p1", "p2"]).all_courses.filter
        (fun c => courseKey c == "ACC-124") = [partialACC]
    ∧ dictGet partialACC "course_desc" (.str "") = .str "" := by
  refine ⟨?_, ?_, ?_, ?_, ?_, ?_⟩ <;> decide

/-- C1 (amended): Every record surviving `deduplicate_courses` is the
*first* record of the input carrying its natural key: a later, fuller
observation of an already-seen key never replaces the earlier partial one —
it is dropped. -/
theorem c1_dedup_keeps_first (courses : List Course) (c : Course)
    (h : c ∈ deduplicate_courses courses) :
    courses.find? (fun d => courseKey d == courseKey c) = some c :=
  (dedupAux_spec courses [] c h).2

/-- Witness for `c1_dedup_keeps_first` at the overlap scenario's record pair. -/
theorem c1_dedup_keeps_first_witness :
    partialACC ∈ deduplicate_courses [partialACC, updatedACC]
    ∧ [partialACC, updatedACC].find?
        (fun d => courseKey d == courseKey partialACC) = some partialACC :=
  ⟨by decide, c1_dedup_keeps_first [partialACC, updatedACC] partialACC (by decide)⟩

/-! ## Mānoa crawler (`manoa_scraper.py`, `crawl_courses` lines 135-238)

A course record as returned by `parse_course_preview_html`; the regex match
on the title may fail, leaving prefix/number/title as `None`. -/

structure MRecord where
  course_prefix : Option String
  course_number : Option String
  course_title : Option String
  course_desc : Option String
  source_url : String
  deriving DecidableEq, Repr

/-- Projection onto the subject-code field of a Mānoa record. -/
def mPrefix (r : MRecord) : Option String := MRecord.course_prefix r

/-- Outcome of one dispatch of `extract_single_course(url, ...)`:

* `ok r` — the driver fetched the page and `parse_course_preview_html`
  returned a record;
* `parseFail` — the function returned `None` (parse failure, or an exception
  inside its `try` block, caught there);
* `raise` — an exception escaped `extract_single_course` (e.g. the
  `webdriver.Chrome(...)` construction on line 120, which sits *outside* the
  `try`), so `future.result()` re-raises it in `crawl_courses`. -/
inductive FetchResult where
  | ok (r : MRecord)
  | parseFail
  | raise
  deriving DecidableEq, Repr

/-- The record a dispatch of `url` would append, if any. -/
def okRecord (outcome : String → FetchResult) (url : String) : Option MRecord :=
  match outcome url with
  | .ok r => some r
  | _ => Option.none

/-- Python `set.add`: sets are modelled as insertion-ordered duplicate-free
lists. -/
def insertNew (l : List String) (u : String) : List String :=
  if u ∈ l then l else l ++ [u]

/-- Crawl state: `visited_courses`, `all_extracted`, plus a ghost log of the
dispatched extraction tasks (instrumentation, not program state). -/
structure MState where
  visited : List String
  all_extracted : List MRecord
  dispatched : List String
  deriving Repr

/-- Handling of one completed future in the `as_completed` loop
(lines 210-232): on `ok` the record is appended and the url marked visited;
on `parseFail` only the visited mark happens; if `future.result()` raises,
the `except` branch (line 231) skips both. -/
def processUrl (outcome : String → FetchResult) (st : MState) (url : String) : MState :=
  match outcome url with
  | .raise => { st with dispatched := st.dispatched ++ [url] }
  | .parseFail =>
    { st with dispatched := st.dispatched ++ [url], visited := insertNew st.visited url }
  | .ok r =>
    { st with dispatched := st.dispatched ++ [url],
              visited := insertNew st.visited url,
              all_extracted := st.all_extracted ++ [r] }

/-- Link collection on one catalog page (lines 180-186): every `href`
matching the course-url prefix and not yet visited joins the
`current_page_course_links` set. -/
def collectNewLinks (pre : String) (visited : List String) (links : List String) : List String :=
  links.foldl
    (fun acc href =>
      if pyStartswith href pre = true ∧ href ∉ visited then insertNew acc href else acc) []

/-- One catalog page: collect the new links, then process each dispatched
extraction task (the thread pool's completion order is modelled as the
submission order). -/
def processCatalogPage (pre : String) (outcome : String → FetchResult)
    (st : MState) (links : List String) : MState :=
  (collectNewLinks pre st.visited links).foldl (processUrl outcome) st

/-- The whole crawl over the catalog pages (a catalog page whose fetch fails
contributes no links). -/
def manoaCrawl (pre : String) (outcome : String → FetchResult)
    (pages : List (List String)) : MState :=
  pages.foldl (processCatalogPage pre outcome) ⟨[], [], []⟩

/-! ### Basic fold lemmas for the Mānoa model -/

theorem processUrl_dispatched (outcome : String → FetchResult) (st : MState) (url : String) :
    (processUrl outcome st url).dispatched = st.dispatched ++ [url] := by
  unfold processUrl; cases outcome url <;> rfl

theorem foldUrls_dispatched (outcome : String → FetchResult) (urls : List String) :
    ∀ st : MState,
      (urls.foldl (processUrl outcome) st).dispatched = st.dispatched ++ urls := by
  induction urls with
  | nil => intro st; simp
  | cons u rest ih =>
    intro st
    rw [List.foldl_cons, ih, processUrl_dispatched]
    simp

theorem foldUrls_all_extracted (outcome : String → FetchResult) (urls : List String) :
    ∀ st : MState,
      (urls.foldl (processUrl outcome) st).all_extracted
        = st.all_extracted ++ urls.filterMap (okRecord outcome) := by
  induction urls with
  | nil => intro st; simp
  | cons u rest ih =>
    intro st
    rw [List.foldl_cons, ih]
    rcases h : outcome u with r | _ | _ <;>
      simp [processUrl, okRecord, h, List.filterMap_cons]

/-- Invariant: the extracted records are exactly the `ok` results of the
dispatched tasks, in dispatch order. -/
def MInv (outcome : String → FetchResult) (st : MState) : Prop :=
  st.all_extracted = st.dispatched.filterMap (okRecord outcome)

theorem processCatalogPage_inv (pre : String) (outcome : String → FetchResult)
    (st : MState) (links : List String) (h : MInv outcome st) :
    MInv outcome (processCatalogPage pre outcome st links) := by
  unfold MInv processCatalogPage
  rw [foldUrls_dispatched, foldUrls_all_extracted, List.filterMap_append, h]

theorem manoaCrawl_inv (pre : String) (outcome : String → FetchResult)
    (pages : List (List String)) : MInv outcome (manoaCrawl pre outcome pages) := by
  unfold manoaCrawl
  have : ∀ (ps : List (List String)) (st : MState), MInv outcome st →
      MInv outcome (ps.foldl (processCatalogPage pre outcome) st) := by
    intro ps
    induction ps with
    | nil => intro st h; exact h
    | cons p rest ih => intro st h; exact ih _ (processCatalogPage_inv pre outcome st p h)
  exact this pages ⟨[], [], []⟩ rfl

/-! ### Coverage: every matching link of every catalog page is dispatched -/

theorem mem_insertNew_of_mem {l : List String} {a : String} (u : String) (h : a ∈ l) :
    a ∈ insertNew l u := by
  unfold insertNew
  split
  · exact h
  · exact List.mem_append_left _ h

theorem self_mem_insertNew (l : List String) (u : String) : u ∈ insertNew l u := by
  unfold insertNew
  split
  · assumption
  · exact List.mem_append_right _ (List.mem_singleton.mpr rfl)

theorem mem_collectNewLinks (pre : String) (visited : List String) (links : List String)
    (href : String) (hl : href ∈ links) (hs : pyStartswith href pre = true)
    (hv : href ∉ visited) : href ∈ collectNewLinks pre visited links := by
  unfold collectNewLinks
  have aux : ∀ (ls : List String) (acc : List String),
      (href ∈ acc ∨ (href ∈ ls ∧ pyStartswith href pre = true ∧ href ∉ visited)) →
        href ∈ ls.foldl
          (fun acc href =>
            if pyStartswith href pre = true ∧ href ∉ visited then insertNew acc href else acc)
          acc := by
    intro ls
    induction ls with
    | nil =>
      intro acc h
      rcases h with h | ⟨h, _⟩
      · simpa using h
      · exact absurd h (List.not_mem_nil _)
    | cons l rest ih =>
      intro acc h
      rw [List.foldl_cons]
      rcases h with h | ⟨hmem, hs', hv'⟩
      · refine ih _ (Or.inl ?_)
        split
        · exact mem_insertNew_of_mem l h
        · exact h
      · rcases List.mem_cons.mp hmem with rfl | hmem'
        · refine ih _ (Or.inl ?_)
          rw [if_pos ⟨hs', hv'⟩]
          exact self_mem_insertNew acc href
        · exact ih _ (Or.inr ⟨hmem', hs', hv'⟩)
  exact aux links [] (Or.inr ⟨hl, hs, hv⟩)

/-- Ghost invariant: every visited url was dispatched. -/
def VisSubDisp (st : MState) : Prop := ∀ v ∈ st.visited, v ∈ st.dispatched

theorem processUrl_visSubDisp (outcome : String → FetchResult) (st : MState) (url : String)
    (h : VisSubDisp st) : VisSubDisp (processUrl outcome st url) := by
  unfold VisSubDisp at *
  unfold processUrl
  rcases houtcome : outcome url with r | _ | _ <;> intro v hv <;> simp only at hv ⊢
  · unfold insertNew at hv
    split at hv
    · exact List.mem_append_left _ (h v hv)
    · rcases List.mem_append.mp hv with hv' | hv'
      · exact List.mem_append_left _ (h v hv')
      · exact List.mem_append_right _ hv'
  · unfold insertNew at hv
    split at hv
    · exact List.mem_append_left _ (h v hv)
    · rcases List.mem_append.mp hv with hv' | hv'
      · exact List.mem_append_left _ (h v hv')
      · exact List.mem_append_right _ hv'
  · exact List.mem_append_left _ (h v hv)

theorem foldUrls_visSubDisp (outcome : String → FetchResult) (urls : List String) :
    ∀ st : MState, VisSubDisp st → VisSubDisp (urls.foldl (processUrl outcome) st) := by
  induction urls with
  | nil => intro st h; exact h
  | cons u rest ih => intro st h; exact ih _ (processUrl_visSubDisp outcome st u h)

theorem processCatalogPage_visSubDisp (pre : String) (outcome : String → FetchResult)
    (st : MState) (links : List String) (h : VisSubDisp st) :
    VisSubDisp (processCatalogPage pre outcome st links) :=
  foldUrls_visSubDisp outcome _ st h

theorem foldPages_dispatched_mono (pre : String) (outcome : String → FetchResult)
    (pages : List (List String)) :
    ∀ (st : MState) (u : String), u ∈ st.dispatched →
      u ∈ (pages.foldl (processCatalogPage pre outcome) st).dispatched := by
  induction pages with
  | nil => intro st u h; exact h
  | cons p rest ih =>
    intro st u h
    refine ih _ u ?_
    unfold processCatalogPage
    rw [foldUrls_dispatched]
    exact List.mem_append_left _ h

theorem foldPages_coverage (pre : String) (outcome : String → FetchResult)
    (pages : List (List String)) :
    ∀ st : MState, VisSubDisp st →
      ∀ pg ∈ pages, ∀ href ∈ pg, pyStartswith href pre = true →
        href ∈ (pages.foldl (processCatalogPage pre outcome) st).dispatched := by
  induction pages with
  | nil => intro st _ pg hpg; exact absurd hpg (List.not_mem_nil _)
  | cons p rest ih =>
    intro st hst pg hpg href hhref hs
    rw [List.foldl_cons]
    rcases List.mem_cons.mp hpg with rfl | hpg'
    · refine foldPages_dispatched_mono pre outcome rest _ href ?_
      unfold processCatalogPage
      rw [foldUrls_dispatched]
      by_cases hv : href ∈ st.visited
      · exact List.mem_append_left _ (hst href hv)
      · exact List.mem_append_right _ (mem_collectNewLinks pre st.visited pg href hhref hs hv)
    · exact ih _ (processCatalogPage_visSubDisp pre outcome st p hst) pg hpg' href hhref hs

/-- C6 (confirmed): If the extraction of unit `u` fails permanently —
`extract_single_course` returns `None` (its internal `try` caught the
exception) or the future re-raises — then `u` contributes zero records, while
the final committed list is exactly the `ok` results of the dispatched units
in completion order, and every course link of every catalog page that matches
the course-url prefix is still dispatched: no per-unit failure terminates the
run. -/
theorem c6_soft_failure_isolation (pre : String) (outcome : String → FetchResult)
    (pages : List (List String)) (u : String)
    (hu : okRecord outcome u = Option.none) :
    okRecord outcome u = Option.none
    ∧ (manoaCrawl pre outcome pages).all_extracted
        = ((manoaCrawl pre outcome pages).dispatched).filterMap (okRecord outcome)
    ∧ ∀ pg ∈ pages, ∀ href ∈ pg, pyStartswith href pre = true →
        href ∈ (manoaCrawl pre outcome pages).dispatched := by
  refine ⟨hu, manoaCrawl_inv pre outcome pages, ?_⟩
  intro pg hpg href hhref hs
  exact foldPages_coverage pre outcome pages ⟨[], [], []⟩ (by intro v hv; exact absurd hv (List.not_mem_nil _))
    pg hpg href hhref hs

/-- Concrete scenario for the `c6_soft_failure_isolation` witness: "f1"
raises, "f2" parses. -/
def c6Outcome : String → FetchResult := fun u =>
  if u = "f2" then
    .ok { course_prefix := some "BIO", course_number := some "200",
          course_title := some "Biology", course_desc := some "b",
          source_url := "f2" }
  else .raise

/-- Witness: with unit "f1" raising, "f2"'s record is still committed and
the run completes over both units. -/
theorem c6_soft_failure_isolation_witness :
    okRecord c6Outcome "f1" = Option.none
    ∧ (manoaCrawl "f" c6Outcome [["f1", "f2"]]).all_extracted
        = ((manoaCrawl "f" c6Outcome [["f1", "f2"]]).dispatched).filterMap
            (okRecord c6Outcome) :=
  ⟨(c6_soft_failure_isolation "f" c6Outcome [["f1", "f2"]] "f1" (by decide)).1,
   (c6_soft_failure_isolation "f" c6Outcome [["f1", "f2"]] "f1" (by decide)).2.1⟩

/-- A single course url that raises on dispatch, listed by two successive
catalog pages. -/
def c7Outcome : String → FetchResult := fun _ => .raise

/-- C7 (counterexample): A url whose dispatch raises (e.g. the
`webdriver.Chrome` construction fails) is *not* recorded in
`visited_courses` — line 224 runs inside the `try` — so when a later catalog
page lists the same url it is collected and dispatched a second time: a
discovered location can be dispatched for extraction twice in one run. -/
theorem c7_counterexample :
    (manoaCrawl "c" c7Outcome [["cu"], ["cu"]]).dispatched = ["cu", "cu"]
    ∧ (manoaCrawl "c" c7Outcome [["cu"], ["cu"]]).dispatched.count "cu" = 2
    ∧ (manoaCrawl "c" c7Outcome [["cu"], ["cu"]]).visited = [] := by
  refine ⟨?_, ?_, ?_⟩ <;> decide

/-! ### C2 counterexample scenario

Two distinct course urls whose pages parse to the same natural key.  The
Mānoa crawler deduplicates *urls* (`visited_courses`), never natural keys, so
both records are committed. -/

def mRecACC (url : String) : MRecord :=
  { course_prefix := some "ACC", course_number := some "101",
    course_title := some "Accounting", course_desc := some "d",
    source_url := url }

def c2Outcome : String → FetchResult := fun u =>
  if u = "h1" then .ok (mRecACC "h1")
  else if u = "h2" then .ok (mRecACC "h2")
  else .raise

/-- C2 (counterexample): A Mānoa crawl over one catalog page listing two
distinct course urls that both parse to natural key `(ACC, 101)` commits two
records with that key: the crawler's only dedup set is keyed by url, not by
`(course_prefix, course_number)`. -/
theorem c2_counterexample :
    (manoaCrawl "h" c2Outcome [["h1", "h2"]]).all_extracted.map
        (fun r => (mPrefix r, r.course_number))
      = [(some "ACC", some "101"), (some "ACC", some "101")]
    ∧ (manoaCrawl "h" c2Outcome [["h1", "h2"]]).all_extracted.map
        (fun r => r.source_url) = ["h1", "h2"]
    ∧ ((manoaCrawl "h" c2Outcome [["h1", "h2"]]).all_extracted.filter
        (fun r => mPrefix r == some "ACC" && r.course_number == some "101")).length
      = 2 := by
  refine ⟨?_, ?_, ?_⟩ <;> decide

/-! ## Kauaʻi crawler (`Kauai Community College/web_scraper.py`,
`crawl_courses` lines 303-383)

A course dict as built by `extract_single_course_from_h3` (all fields are
strings there). -/

structure KRecord where
  course_prefix : String
  course_number : String
  course_desc : String
  deriving DecidableEq, Repr

/-- Projection onto the subject-code field of a Kauaʻi record. -/
def kPrefix (c : KRecord) : String := KRecord.course_prefix c

/-- The dedup key `f"{course['course_prefix']}-{course['course_number']}"`
(line 366). -/
def kKey (c : KRecord) : String := kPrefix c ++ "-" ++ c.course_number

/-- Department-link filter (line 351): `href.startswith('/') and len(href) > 1
and '(' in text and ')' in text`. -/
def validLink (href text : String) : Bool :=
  pyStartswith href "/" && decide (1 < pyLen href) && pyContainsChar text '('
    && pyContainsChar text ')'

/-- The link loop (lines 347-355): a valid, unvisited department href is both
appended to `valid_dept_links` and added to `visited_dept_urls` *at discovery
time*.  Returns (updated visited set, departments to process in order). -/
def collectDepts (visited : List String) : List (String × String) → List String × List String
  | [] => (visited, [])
  | (href, text) :: rest =>
    if validLink href text = true ∧ href ∉ visited then
      let r := collectDepts (visited ++ [href]) rest
      (r.1, href :: r.2)
    else collectDepts visited rest

/-- Crawl state: `visited_dept_urls`, `seen_courses`, `all_courses`, plus a
ghost log of the department pages processed (instrumentation). -/
structure KState where
  visited_depts : List String
  seen_courses : List String
  all_courses : List KRecord
  processedDepts : List String
  deriving Repr

/-- Per-course admission (lines 365-371): a course is appended iff its
`prefix-number` key is not in `seen_courses`. -/
def kauaiAdmit (st : KState) (c : KRecord) : KState :=
  if kKey c ∈ st.seen_courses then st
  else { st with seen_courses := st.seen_courses ++ [kKey c],
                 all_courses := st.all_courses ++ [c] }

/-- Processing of one department page (lines 361-373); the courses the
department page yields are an oracle input. -/
def kauaiProcessDept (deptCourses : String → List KRecord) (st : KState) (dept : String) :
    KState :=
  (deptCourses dept).foldl kauaiAdmit
    { st with processedDepts := st.processedDepts ++ [dept] }

/-- One catalog page (lines 332-377); a page whose fetch raises contributes
no links (`except ... continue`). -/
def kauaiPage (deptCourses : String → List KRecord) (st : KState)
    (links : List (String × String)) : KState :=
  let r := collectDepts st.visited_depts links
  r.2.foldl (kauaiProcessDept deptCourses) { st with visited_depts := r.1 }

def kauaiCrawl (deptCourses : String → List KRecord)
    (pages : List (List (String × String))) : KState :=
  pages.foldl (kauaiPage deptCourses) ⟨[], [], [], []⟩

/-! ### `collectDepts` lemmas -/

theorem collectDepts_visited_mono (links : List (String × String)) :
    ∀ (visited : List String) (v : String), v ∈ visited →
      v ∈ (collectDepts visited links).1 := by
  induction links with
  | nil => intro visited v h; exact h
  | cons l rest ih =>
    intro visited v h
    rcases l with ⟨href, text⟩
    unfold collectDepts
    split
    · exact ih _ v (List.mem_append_left _ h)
    · exact ih _ v h

theorem collectDepts_valid_not_visited (links : List (String × String)) :
    ∀ (visited : List String) (v : String), v ∈ (collectDepts visited links).2 →
      v ∉ visited := by
  induction links with
  | nil => intro visited v h; simp [collectDepts] at h
  | cons l rest ih =>
    intro visited v h
    rcases l with ⟨href, text⟩
    unfold collectDepts at h
    split at h
    · rcases List.mem_cons.mp h with rfl | h'
      · exact (by assumption : validLink v text = true ∧ v ∉ visited).2
      · intro hv
        exact ih _ v h' (List.mem_append_left _ hv)
    · exact ih _ v h

theorem collectDepts_valid_nodup (links : List (String × String)) :
    ∀ visited : List String, (collectDepts visited links).2.Nodup := by
  induction links with
  | nil => intro visited; simp [collectDepts]
  | cons l rest ih =>
    intro visited
    rcases l with ⟨href, text⟩
    unfold collectDepts
    split
    · refine List.Nodup.cons ?_ (ih _)
      intro hmem
      exact collectDepts_valid_not_visited rest _ href hmem
        (List.mem_append_right _ (List.mem_singleton.mpr rfl))
    · exact ih _

theorem collectDepts_valid_sub_visited (links : List (String × String)) :
    ∀ (visited : List String) (v : String), v ∈ (collectDepts visited links).2 →
      v ∈ (collectDepts visited links).1 := by
  induction links with
  | nil => intro visited v h; simp [collectDepts] at h
  | cons l rest ih =>
    intro visited v h
    rcases l with ⟨href, text⟩
    unfold collectDepts at h ⊢
    split at h
    · rename_i hcond
      rcases List.mem_cons.mp h with rfl | h'
      · rw [if_pos hcond]
        exact collectDepts_visited_mono rest _ v
          (List.mem_append_right _ (List.mem_singleton.mpr rfl))
      · rw [if_pos hcond]
        exact ih _ v h'
    · rename_i hcond
      rw [if_neg hcond]
      exact ih _ v h

/-! ### Kauaʻi key-uniqueness invariant -/

/-- Every committed course's key is in `seen_courses`, and committed keys are
pairwise distinct. -/
def KeyInv (st : KState) : Prop :=
  (∀ c ∈ st.all_courses, kKey c ∈ st.seen_courses)
  ∧ st.all_courses.Pairwise (fun a b => kKey a ≠ kKey b)

theorem kauaiAdmit_keyInv (st : KState) (c : KRecord) (h : KeyInv st) :
    KeyInv (kauaiAdmit st c) := by
  obtain ⟨hsub, hpw⟩ := h
  unfold kauaiAdmit
  split
  · exact ⟨hsub, hpw⟩
  · rename_i hnot
    constructor
    · intro d hd
      rcases List.mem_append.mp hd with hd' | hd'
      · exact List.mem_append_left _ (hsub d hd')
      · rw [List.mem_singleton.mp hd']
        exact List.mem_append_right _ (List.mem_singleton.mpr rfl)
    · rw [List.pairwise_append]
      refine ⟨hpw, List.pairwise_singleton _ _, ?_⟩
      intro a ha b hb
      rw [List.mem_singleton.mp hb]
      intro he
      exact hnot (he ▸ hsub a ha)

theorem foldAdmit_keyInv (courses : List KRecord) :
    ∀ st : KState, KeyInv st → KeyInv (courses.foldl kauaiAdmit st) := by
  induction courses with
  | nil => intro st h; exact h
  | cons c rest ih => intro st h; exact ih _ (kauaiAdmit_keyInv st c h)

theorem kauaiProcessDept_keyInv (deptCourses : String → List KRecord) (st : KState)
    (dept : String) (h : KeyInv st) :
    KeyInv (kauaiProcessDept deptCourses st dept) :=
  foldAdmit_keyInv _ _ h

theorem foldDepts_keyInv (deptCourses : String → List KRecord) (depts : List String) :
    ∀ st : KState, KeyInv st → KeyInv (depts.foldl (kauaiProcessDept deptCourses) st) := by
  induction depts with
  | nil => intro st h; exact h
  | cons d rest ih => intro st h; exact ih _ (kauaiProcessDept_keyInv deptCourses st d h)

theorem kauaiPage_keyInv (deptCourses : String → List KRecord) (st : KState)
    (links : List (String × String)) (h : KeyInv st) :
    KeyInv (kauaiPage deptCourses st links) :=
  foldDepts_keyInv deptCourses _ _ h

theorem kauaiCrawl_keyInv (deptCourses : String → List KRecord)
    (pages : List (List (String × String))) :
    KeyInv (kauaiCrawl deptCourses pages) := by
  unfold kauaiCrawl
  have aux : ∀ (ps : List (List (String × String))) (st : KState), KeyInv st →
      KeyInv (ps.foldl (kauaiPage deptCourses) st) := by
    intro ps
    induction ps with
    | nil => intro st h; exact h
    | cons p rest ih => intro st h; exact ih _ (kauaiPage_keyInv deptCourses st p h)
  exact aux pages ⟨[], [], [], []⟩ ⟨by intro c hc; exact absurd hc (List.not_mem_nil _),
    List.Pairwise.nil⟩

/-! ### HCC: the committed set always has pairwise-distinct keys -/

theorem deduplicate_courses_pairwise (courses : List Course) :
    (deduplicate_courses courses).Pairwise (fun a b => courseKey a ≠ courseKey b) :=
  dedupAux_pairwise courses []

theorem pageMerge_pairwise (st : LoopState) (courses : List Course)
    (h : st.all_courses.Pairwise (fun a b => courseKey a ≠ courseKey b)) :
    (pageMerge st courses).all_courses.Pairwise
      (fun a b => courseKey a ≠ courseKey b) := by
  unfold pageMerge
  split
  · exact h
  · exact deduplicate_courses_pairwise _

theorem processPage_pairwise (extract : PageExtractor) (st : LoopState) (p : String)
    (h : st.all_courses.Pairwise (fun a b => courseKey a ≠ courseKey b)) :
    (processPage extract st p).all_courses.Pairwise
      (fun a b => courseKey a ≠ courseKey b) := by
  unfold processPage
  dsimp only
  exact pageMerge_pairwise st _ h

theorem runPages_pairwise (extract : PageExtractor) (pages : List String) :
    (runPages extract pages).all_courses.Pairwise
      (fun a b => courseKey a ≠ courseKey b) := by
  unfold runPages
  have aux : ∀ (ps : List String) (st : LoopState),
      st.all_courses.Pairwise (fun a b => courseKey a ≠ courseKey b) →
      (ps.foldl (processPage extract) st).all_courses.Pairwise
        (fun a b => courseKey a ≠ courseKey b) := by
    intro ps
    induction ps with
    | nil => intro st h; exact h
    | cons p rest ih => intro st h; exact ih _ (processPage_pairwise extract st p h)
  exact aux pages ⟨[], [], []⟩ List.Pairwise.nil

theorem hccKeyPair_courseKey {a b : Course} (h : hccKeyPair a = hccKeyPair b) :
    courseKey a = courseKey b := by
  have h1 : pyStr (dictGet a "course_prefix" (.str ""))
      = pyStr (dictGet b "course_prefix" (.str "")) := congrArg Prod.fst h
  have h2 : pyStr (dictGet a "course_number" (.str ""))
      = pyStr (dictGet b "course_number" (.str "")) := congrArg Prod.snd h
  unfold courseKey
  rw [h1, h2]

theorem kPair_kKey {a b : KRecord}
    (h : (kPrefix a, a.course_number) = (kPrefix b, b.course_number)) :
    kKey a = kKey b := by
  have h1 : kPrefix a = kPrefix b := congrArg Prod.fst h
  have h2 : a.course_number = b.course_number := congrArg Prod.snd h
  unfold kKey
  rw [h1, h2]

/-- C2 (amended): Natural-key uniqueness holds for the two pipelines that
deduplicate by key: the HCC page loop (every committed set passes
`deduplicate_courses`) and the Kauaʻi crawler (`seen_courses` gating).  The
Mānoa crawler deduplicates urls only (see the counterexample). -/
theorem c2_key_uniqueness_amended (extract : PageExtractor) (pages : List String)
    (deptCourses : String → List KRecord) (kpages : List (List (String × String))) :
    (runPages extract pages).all_courses.Pairwise
      (fun a b => hccKeyPair a ≠ hccKeyPair b)
    ∧ (kauaiCrawl deptCourses kpages).all_courses.Pairwise
      (fun a b =>
        (kPrefix a, a.course_number) ≠ (kPrefix b, b.course_number)) := by
  constructor
  · exact (runPages_pairwise extract pages).imp
      (fun hne he => hne (hccKeyPair_courseKey he))
  · exact (kauaiCrawl_keyInv deptCourses kpages).2.imp
      (fun hne he => hne (kPair_kKey he))

/-! ### Mānoa dispatch-count invariant (C7 amended) -/

theorem insertNew_nodup {l : List String} (u : String) (h : l.Nodup) :
    (insertNew l u).Nodup := by
  unfold insertNew
  split
  · exact h
  · rename_i hnot
    exact List.Nodup.append h (List.nodup_singleton u)
      (by intro a ha hu; rw [List.mem_singleton.mp hu] at ha; exact hnot ha)

theorem collectNewLinks_spec (pre : String) (visited : List String) (links : List String) :
    (collectNewLinks pre visited links).Nodup
    ∧ ∀ a ∈ collectNewLinks pre visited links, a ∉ visited := by
  unfold collectNewLinks
  have aux : ∀ (ls : List String) (acc : List String), acc.Nodup →
      (∀ a ∈ acc, a ∉ visited) →
      (ls.foldl
          (fun acc href =>
            if pyStartswith href pre = true ∧ href ∉ visited then insertNew acc href else acc)
          acc).Nodup
      ∧ ∀ a ∈ ls.foldl
          (fun acc href =>
            if pyStartswith href pre = true ∧ href ∉ visited then insertNew acc href else acc)
          acc, a ∉ visited := by
    intro ls
    induction ls with
    | nil => intro acc h₁ h₂; exact ⟨h₁, h₂⟩
    | cons l rest ih =>
      intro acc h₁ h₂
      rw [List.foldl_cons]
      split
      · rename_i hcond
        refine ih _ (insertNew_nodup l h₁) ?_
        intro a ha
        unfold insertNew at ha
        split at ha
        · exact h₂ a ha
        · rcases List.mem_append.mp ha with ha' | ha'
          · exact h₂ a ha'
          · rw [List.mem_singleton.mp ha']
            exact hcond.2
      · exact ih _ h₁ h₂
  exact aux links [] List.nodup_nil (by intro a ha; exact absurd ha (List.not_mem_nil _))

theorem processUrl_visited_mono (outcome : String → FetchResult) (st : MState)
    (url v : String) (h : v ∈ st.visited) : v ∈ (processUrl outcome st url).visited := by
  unfold processUrl
  rcases outcome url with r | _ | _ <;> simp only <;>
    first
      | exact mem_insertNew_of_mem url h
      | exact h

theorem foldUrls_visited_mono (outcome : String → FetchResult) (urls : List String) :
    ∀ (st : MState) (v : String), v ∈ st.visited →
      v ∈ (urls.foldl (processUrl outcome) st).visited := by
  induction urls with
  | nil => intro st v h; exact h
  | cons u rest ih =>
    intro st v h
    exact ih _ v (processUrl_visited_mono outcome st u v h)

theorem foldUrls_visited_of_mem (outcome : String → FetchResult) (u : String)
    (hu : outcome u ≠ .raise) (urls : List String) :
    ∀ st : MState, u ∈ urls → u ∈ (urls.foldl (processUrl outcome) st).visited := by
  induction urls with
  | nil => intro st h; exact absurd h (List.not_mem_nil _)
  | cons l rest ih =>
    intro st h
    rcases List.mem_cons.mp h with rfl | h'
    · refine foldUrls_visited_mono outcome rest _ u ?_
      unfold processUrl
      rcases hout : outcome u with r | _ | _ <;> simp only
      · exact self_mem_insertNew st.visited u
      · exact self_mem_insertNew st.visited u
      · exact absurd hout hu
    · exact ih _ h'

/-- Dispatch-count invariant for a url whose dispatch never raises: it is
dispatched at most once, and once dispatched it is visited. -/
def DispCount (u : String) (st : MState) : Prop :=
  st.dispatched.count u ≤ 1 ∧ (u ∈ st.dispatched → u ∈ st.visited)

theorem processCatalogPage_dispCount (pre : String) (outcome : String → FetchResult)
    (u : String) (hu : outcome u ≠ .raise) (st : MState) (links : List String)
    (h : DispCount u st) : DispCount u (processCatalogPage pre outcome st links) := by
  obtain ⟨hcount, hvis⟩ := h
  unfold processCatalogPage
  have hdisp := foldUrls_dispatched outcome (collectNewLinks pre st.visited links) st
  by_cases hmem : u ∈ st.dispatched
  · have huv := hvis hmem
    have hnotL : u ∉ collectNewLinks pre st.visited links :=
      fun hL => (collectNewLinks_spec pre st.visited links).2 u hL huv
    constructor
    · rw [hdisp, List.count_append, List.count_eq_zero.mpr hnotL]
      simpa using hcount
    · intro _
      exact foldUrls_visited_mono outcome _ st u huv
  · constructor
    · rw [hdisp, List.count_append, List.count_eq_zero.mpr hmem]
      simpa using
        (List.nodup_iff_count_le_one.mp (collectNewLinks_spec pre st.visited links).1 u)
    · intro hm
      rw [hdisp] at hm
      rcases List.mem_append.mp hm with hm' | hm'
      · exact absurd hm' hmem
      · exact foldUrls_visited_of_mem outcome u hu _ st hm'

theorem manoaCrawl_dispCount (pre : String) (outcome : String → FetchResult)
    (pages : List (List String)) (u : String) (hu : outcome u ≠ .raise) :
    DispCount u (manoaCrawl pre outcome pages) := by
  unfold manoaCrawl
  have aux : ∀ (ps : List (List String)) (st : MState), DispCount u st →
      DispCount u (ps.foldl (processCatalogPage pre outcome) st) := by
    intro ps
    induction ps with
    | nil => intro st h; exact h
    | cons p rest ih =>
      intro st h
      exact ih _ (processCatalogPage_dispCount pre outcome u hu st p h)
  exact aux pages ⟨[], [], []⟩ ⟨by simp, by intro h; exact absurd h (List.not_mem_nil _)⟩

/-! ### Kauaʻi: each department page is processed at most once -/

theorem kauaiAdmit_frame (st : KState) (c : KRecord) :
    (kauaiAdmit st c).processedDepts = st.processedDepts
    ∧ (kauaiAdmit st c).visited_depts = st.visited_depts := by
  unfold kauaiAdmit
  split <;> exact ⟨rfl, rfl⟩

theorem foldAdmit_frame (courses : List KRecord) :
    ∀ st : KState, (courses.foldl kauaiAdmit st).processedDepts = st.processedDepts
      ∧ (courses.foldl kauaiAdmit st).visited_depts = st.visited_depts := by
  induction courses with
  | nil => intro st; exact ⟨rfl, rfl⟩
  | cons c rest ih =>
    intro st
    obtain ⟨h1, h2⟩ := ih (kauaiAdmit st c)
    obtain ⟨g1, g2⟩ := kauaiAdmit_frame st c
    exact ⟨h1.trans g1, h2.trans g2⟩

theorem foldDepts_frame (deptCourses : String → List KRecord) (depts : List String) :
    ∀ st : KState,
      (depts.foldl (kauaiProcessDept deptCourses) st).processedDepts
          = st.processedDepts ++ depts
      ∧ (depts.foldl (kauaiProcessDept deptCourses) st).visited_depts
          = st.visited_depts := by
  induction depts with
  | nil => intro st; simp
  | cons d rest ih =>
    intro st
    rw [List.foldl_cons]
    obtain ⟨h1, h2⟩ := ih (kauaiProcessDept deptCourses st d)
    unfold kauaiProcessDept at h1 h2 ⊢
    obtain ⟨g1, g2⟩ := foldAdmit_frame (deptCourses d)
      { st with processedDepts := st.processedDepts ++ [d] }
    constructor
    · rw [h1, g1]
      simp
    · rw [h2, g2]

/-- Invariant: processed department pages are pairwise distinct and all
recorded in `visited_dept_urls`. -/
def DeptInv (st : KState) : Prop :=
  st.processedDepts.Nodup ∧ ∀ d ∈ st.processedDepts, d ∈ st.visited_depts

theorem kauaiPage_deptInv (deptCourses : String → List KRecord) (st : KState)
    (links : List (String × String)) (h : DeptInv st) :
    DeptInv (kauaiPage deptCourses st links) := by
  obtain ⟨hnd, hsub⟩ := h
  unfold kauaiPage
  obtain ⟨h1, h2⟩ := foldDepts_frame deptCourses (collectDepts st.visited_depts links).2
    { st with visited_depts := (collectDepts st.visited_depts links).1 }
  constructor
  · rw [h1]
    refine List.Nodup.append hnd (collectDepts_valid_nodup links st.visited_depts) ?_
    intro a ha hv
    exact collectDepts_valid_not_visited links st.visited_depts a hv (hsub a ha)
  · intro d hd
    rw [h1] at hd
    rw [h2]
    rcases List.mem_append.mp hd with hd' | hd'
    · exact collectDepts_visited_mono links st.visited_depts d (hsub d hd')
    · exact collectDepts_valid_sub_visited links st.visited_depts d hd'

theorem kauaiCrawl_deptInv (deptCourses : String → List KRecord)
    (pages : List (List (String × String))) : DeptInv (kauaiCrawl deptCourses pages) := by
  unfold kauaiCrawl
  have aux : ∀ (ps : List (List (String × String))) (st : KState), DeptInv st →
      DeptInv (ps.foldl (kauaiPage deptCourses) st) := by
    intro ps
    induction ps with
    | nil => intro st h; exact h
    | cons p rest ih => intro st h; exact ih _ (kauaiPage_deptInv deptCourses st p h)
  exact aux pages ⟨[], [], [], []⟩ ⟨List.nodup_nil,
    by intro d hd; exact absurd hd (List.not_mem_nil _)⟩

/-- C7 (amended): A location whose dispatch completes (does not raise) is
dispatched at most once across the whole Mānoa run — once it is recorded in
`visited_courses` no later catalog page re-adds it — and in the Kauaʻi
crawler, where urls enter `visited_dept_urls` at discovery time, every
department location is processed at most once unconditionally.  (A Mānoa
dispatch that raises is *not* marked visited and can be re-dispatched: see
the counterexample.) -/
theorem c7_dispatch_once_amended (pre : String) (outcome : String → FetchResult)
    (pages : List (List String)) (u : String) (hu : outcome u ≠ .raise)
    (deptCourses : String → List KRecord) (kpages : List (List (String × String)))
    (d : String) :
    (manoaCrawl pre outcome pages).dispatched.count u ≤ 1
    ∧ (kauaiCrawl deptCourses kpages).processedDepts.count d ≤ 1 :=
  ⟨(manoaCrawl_dispCount pre outcome pages u hu).1,
   List.nodup_iff_count_le_one.mp (kauaiCrawl_deptInv deptCourses kpages).1 d⟩

/-- Witness for `c7_dispatch_once_amended` on concrete runs. -/
theorem c7_dispatch_once_amended_witness :
    (manoaCrawl "m" (fun _ => .parseFail) [["mx"], ["mx"]]).dispatched.count "mx" ≤ 1
    ∧ (kauaiCrawl (fun _ => []) [[("/acc", "(ACC)")], [("/acc", "(ACC)")]]).processedDepts.count
        "/acc" ≤ 1 :=
  c7_dispatch_once_amended "m" (fun _ => .parseFail) [["mx"], ["mx"]] "mx" (by decide)
    (fun _ => []) [[("/acc", "(ACC)")], [("/acc", "(ACC)")]] "/acc"

/-! ## Checkpoint artifacts (`save_incremental_results`, lines 246-269, and
the final write of `extract_courses_from_pdf`, lines 356-372)

A small JSON document model, enough for the artifact structure. -/

inductive Json where
  | null : Json
  | str (s : String) : Json
  | num (n : Int) : Json
  | arr (xs : List Json) : Json
  | obj (kvs : List (String × Json)) : Json

def pyValToJson : PyVal → Json
  | .none => .null
  | .str s => .str s
  | .num n => .num n

def courseToJson (c : Course) : Json :=
  .obj (c.map (fun kv => (kv.1, pyValToJson kv.2)))

/-- Top-level member names of a JSON object. -/
def Json.objKeys : Json → List String
  | .obj kvs => kvs.map Prod.fst
  | _ => []

/-- Member lookup in a JSON object. -/
def jGet (j : Json) (k : String) : Option Json :=
  match j with
  | .obj kvs => (kvs.find? (fun kv => kv.1 = k)).map Prod.snd
  | _ => Option.none

def jGetStr (j : Json) (k : String) : Option String :=
  match jGet j k with
  | some (.str s) => some s
  | _ => Option.none

def jGetNum (j : Json) (k : String) : Option Int :=
  match jGet j k with
  | some (.num n) => some n
  | _ => Option.none

/-- The `output_data` dict built by `save_incremental_results`
(lines 248-260), with the timestamp as an input. -/
def save_incremental_results_data (all_courses : List Course)
    (source_file timestamp : String) (current_page total_pages : Nat) : Json :=
  .obj [("metadata", .obj
      [("source_file", .str source_file),
       ("total_pages", .num total_pages),
       ("pages_processed", .num current_page),
       ("total_courses", .num all_courses.length),
       ("extraction_timestamp", .str timestamp),
       ("extractor", .str "Gemini LLM"),
       ("model", .str "gemini-1.5-flash"),
       ("status", .str (if current_page < total_pages then "in_progress" else "complete"))]),
    ("courses", .arr (all_courses.map courseToJson))]

/-- The `output_data` dict built at the end of `extract_courses_from_pdf`
(lines 356-367).  Its metadata has no `pages_processed` member. -/
def final_output_data (validated_courses : List Course)
    (source_file timestamp : String) (total_pages : Nat) : Json :=
  .obj [("metadata", .obj
      [("source_file", .str source_file),
       ("total_pages", .num total_pages),
       ("total_courses", .num validated_courses.length),
       ("extraction_timestamp", .str timestamp),
       ("extractor", .str "Gemini LLM"),
       ("model", .str "gemini-1.5-flash"),
       ("status", .str "complete")]),
    ("courses", .arr (validated_courses.map courseToJson))]

/-- C9 (counterexample): The artifact written at the very end of the run
(after processing page `T` of `T`; reached when the accumulated list is
empty, cf. the `validate_and_fix_course` `NameError`) has the two top-level
members and status `complete`, but its `metadata` carries *no*
units-processed member: the claim's required `pages_processed` field is
absent from this checkpoint. -/
theorem c9_counterexample :
    Json.objKeys (final_output_data [] "courses.pdf" "t0" 3) = ["metadata", "courses"]
    ∧ (jGet (final_output_data [] "courses.pdf" "t0" 3) "metadata").map Json.objKeys
      = some ["source_file", "total_pages", "total_courses", "extraction_timestamp",
              "extractor", "model", "status"]
    ∧ "pages_processed" ∉
        (["source_file", "total_pages", "total_courses", "extraction_timestamp",
          "extractor", "model", "status"] : List String)
    ∧ ((jGet (final_output_data [] "courses.pdf" "t0" 3) "metadata").bind
        (fun m => jGetStr m "status")) = some "complete" := by
  refine ⟨rfl, rfl, by decide, rfl⟩

/-- C9 (amended): Every *per-page* checkpoint written by
`save_incremental_results` after page `i` of `T` (`i ≤ T`) is a document with
exactly the two top-level members `metadata` and `courses` (the ordered
record sequence); its metadata carries the source identifier, total units,
units processed, record count, timestamp and status, with status
`in_progress` iff `i < T` and `complete` iff `i = T`.  The end-of-run final
artifact instead omits the units-processed member (see the
counterexample). -/
theorem c9_checkpoint_shape_amended (all_courses : List Course)
    (sf ts : String) (i T : Nat) (h : i ≤ T) :
    Json.objKeys (save_incremental_results_data all_courses sf ts i T)
      = ["metadata", "courses"]
    ∧ jGet (save_incremental_results_data all_courses sf ts i T) "courses"
      = some (.arr (all_courses.map courseToJson))
    ∧ (jGet (save_incremental_results_data all_courses sf ts i T) "metadata").map Json.objKeys
      = some ["source_file", "total_pages", "pages_processed", "total_courses",
              "extraction_timestamp", "extractor", "model", "status"]
    ∧ ((jGet (save_incremental_results_data all_courses sf ts i T) "metadata").bind
        (fun m => jGetStr m "source_file")) = some sf
    ∧ ((jGet (save_incremental_results_data all_courses sf ts i T) "metadata").bind
        (fun m => jGetNum m "total_pages")) = some T
    ∧ ((jGet (save_incremental_results_data all_courses sf ts i T) "metadata").bind
        (fun m => jGetNum m "pages_processed")) = some i
    ∧ ((jGet (save_incremental_results_data all_courses sf ts i T) "metadata").bind
        (fun m => jGetNum m "total_courses")) = some all_courses.length
    ∧ ((jGet (save_incremental_results_data all_courses sf ts i T) "metadata").bind
        (fun m => jGetStr m "extraction_timestamp")) = some ts
    ∧ (((jGet (save_incremental_results_data all_courses sf ts i T) "metadata").bind
        (fun m => jGetStr m "status")) = some "in_progress" ↔ i < T)
    ∧ (((jGet (save_incremental_results_data all_courses sf ts i T) "metadata").bind
        (fun m => jGetStr m "status")) = some "complete" ↔ i = T) := by
  refine ⟨rfl, rfl, rfl, rfl, rfl, rfl, rfl, rfl, ?_, ?_⟩ <;>
    · simp only [save_incremental_results_data, jGet, jGetStr, List.find?, Option.bind]
      by_cases hlt : i < T
      · simp [hlt, Nat.ne_of_lt hlt]
      · have : i = T := Nat.le_antisymm h (Nat.le_of_not_lt hlt)
        simp [hlt, this]

/-- Witness for `c9_checkpoint_shape_amended` at `i = 1`, `T = 2`. -/
theorem c9_checkpoint_shape_amended_witness :
    (1 : Nat) ≤ 2
    ∧ Json.objKeys (save_incremental_results_data [] "courses.pdf" "t0" 1 2)
      = ["metadata", "courses"] :=
  ⟨by decide, (c9_checkpoint_shape_amended [] "courses.pdf" "t0" 1 2 (by decide)).1⟩

/-! ## Checkpoint durability (C3): the save is a truncate-then-write on the
final artifact path

`save_incremental_results` (lines 262-264) and the Mānoa `save_to_json`
(lines 99-111) both run `with open(path, 'w', ...) as f: json.dump(data, f)`:
CPython truncates the file at `open(..., 'w')` and then writes the document.
No temporary path and no atomic rename are involved. -/

/-- Content of a file: the empty file left by a truncating `open`, or a
complete JSON document. -/
inductive FileVal where
  | emptyFile : FileVal
  | jsonDoc (j : Json) : FileVal

/-- File-system operations performed by the save. -/
inductive FsOp where
  | truncate (path : String) : FsOp
  | write (path : String) (data : Json) : FsOp

def FsOp.path : FsOp → String
  | .truncate p => p
  | .write p _ => p

def applyOp (fs : String → Option FileVal) : FsOp → String → Option FileVal
  | .truncate p => fun q => if q = p then some .emptyFile else fs q
  | .write p d => fun q => if q = p then some (.jsonDoc d) else fs q

def applyOps (ops : List FsOp) (fs : String → Option FileVal) : String → Option FileVal :=
  ops.foldl applyOp fs

/-- Models `with open(path, 'w', encoding='utf-8') as f: json.dump(data, f, ...)`. -/
def pyOpenWriteJsonDump (path : String) (data : Json) : List FsOp :=
  [.truncate path, .write path data]

/-- The write trace of `save_incremental_results(all_courses, pdf_path,
output_path, current_page, total_pages)`. -/
def save_incremental_results_ops (all_courses : List Course)
    (source_file timestamp : String) (current_page total_pages : Nat)
    (output_path : String) : List FsOp :=
  pyOpenWriteJsonDump output_path
    (save_incremental_results_data all_courses source_file timestamp current_page total_pages)

/-- The write trace of the Mānoa `save_to_json(data, filepath)` (the lock
only serialises writers; the file operations are the same). -/
def save_to_json_ops (data : Json) (filepath : String) : List FsOp :=
  pyOpenWriteJsonDump filepath data

/-- A prior file system holding a valid artifact at "out.json". -/
def priorFs : String → Option FileVal :=
  fun p => if p = "out.json" then
    some (.jsonDoc (save_incremental_results_data [] "courses.pdf" "t0" 1 3))
  else Option.none

/-- C3 (counterexample): Every operation of the save trace targets the
final artifact path — there is no temporary location — and a process killed
after the truncating `open` but before the `json.dump` write leaves the
artifact empty: the prior valid artifact is destroyed, not preserved. -/
theorem c3_counterexample :
    (save_incremental_results_ops [otherCourse] "courses.pdf" "t1" 2 3 "out.json").map
        FsOp.path = ["out.json", "out.json"]
    ∧ applyOps
        ((save_incremental_results_ops [otherCourse] "courses.pdf" "t1" 2 3 "out.json").take 1)
        priorFs "out.json" = some .emptyFile
    ∧ applyOps
        ((save_incremental_results_ops [otherCourse] "courses.pdf" "t1" 2 3 "out.json").take 1)
        priorFs "out.json" ≠ priorFs "out.json" := by
  refine ⟨rfl, rfl, ?_⟩
  · intro h
    have h' : FileVal.emptyFile = FileVal.jsonDoc
        (save_incremental_results_data [] "courses.pdf" "t0" 1 3) :=
      Option.some.inj h
    exact FileVal.noConfusion h'

/-- C3 (amended): Each save does overwrite the artifact with the full
current result set — the final content is the whole serialized document,
independent of whatever was on disk before (never an append) — but it does so
by truncating and rewriting the final artifact in place; there is no
temporary file and no atomic replace (see the counterexample). -/
theorem c3_overwrite_amended (all_courses : List Course)
    (source_file timestamp : String) (current_page total_pages : Nat)
    (output_path : String) (fs fs' : String → Option FileVal) :
    applyOps (save_incremental_results_ops all_courses source_file timestamp
        current_page total_pages output_path) fs output_path
      = some (.jsonDoc (save_incremental_results_data all_courses source_file timestamp
          current_page total_pages))
    ∧ applyOps (save_incremental_results_ops all_courses source_file timestamp
        current_page total_pages output_path) fs output_path
      = applyOps (save_incremental_results_ops all_courses source_file timestamp
          current_page total_pages output_path) fs' output_path := by
  constructor <;>
    simp [save_incremental_results_ops, pyOpenWriteJsonDump, applyOps, applyOp]

/-! ## The `validate_and_fix_course` `NameError` (C4)

`extract_courses_from_pdf` lines 345-353:

```python
for course in all_courses:
    if validate_and_fix_course(course):
        validated_courses.append(course)
```

The name `validate_and_fix_course` is bound nowhere: the module defines
`validate_and_fix_courses` (plural) and nothing else resembling it. -/

inductive PyExc where
  | nameError (name : String) : PyExc
  deriving DecidableEq, Repr

/-- The global names bound in `pdf_extractor.py` when the final loop runs:
the six imports and the eight module-level functions. -/
def pdf_extractor_module_names : List String :=
  ["json", "os", "genai", "datetime", "time", "re",
   "extract_text_from_pdf", "create_gemini_prompt", "validate_and_fix_courses",
   "extract_courses_from_page", "deduplicate_courses", "save_incremental_results",
   "extract_courses_from_pdf", "main"]

/-- Python name resolution at call time. -/
def resolveName (n : String) : Except PyExc Unit :=
  if n ∈ pdf_extractor_module_names then .ok () else .error (.nameError n)

/-- The final validation loop (lines 347-351).  The course-keeping branch is
unreachable: the name is unbound, so the first iteration raises. -/
def finalValidationLoop : List Course → Except PyExc (List Course)
  | [] => .ok []
  | c :: rest => do
    let _ ← resolveName "validate_and_fix_course"
    let vrest ← finalValidationLoop rest
    .ok (c :: vrest)

/-- The tail of `extract_courses_from_pdf` (lines 345-376): validation loop,
then the final-results write, returning `True` (or `False` if the write
raises). -/
def extract_courses_from_pdf_finalPhase (all_courses : List Course) (saveOk : Bool) :
    Except PyExc Bool := do
  let _ ← finalValidationLoop all_courses
  if saveOk then .ok true else .ok false

/-- C4 (confirmed): Whenever the accumulated course list is non-empty
after the page loop, the final phase raises
`NameError: validate_and_fix_course` — the final-results write is never
reached and the function returns neither `True` nor `False`. -/
theorem c4_name_error (all_courses : List Course) (saveOk : Bool)
    (h : all_courses ≠ []) :
    extract_courses_from_pdf_finalPhase all_courses saveOk
      = .error (.nameError "validate_and_fix_course")
    ∧ ∀ b : Bool, extract_courses_from_pdf_finalPhase all_courses saveOk ≠ .ok b := by
  match all_courses with
  | [] => exact absurd rfl h
  | c :: rest =>
    have he : extract_courses_from_pdf_finalPhase (c :: rest) saveOk
        = .error (.nameError "validate_and_fix_course") := rfl
    exact ⟨he, fun b hb => by rw [he] at hb; exact Except.noConfusion hb⟩

/-- Witness for `c4_name_error` on a one-course run. -/
theorem c4_name_error_witness :
    ([partialACC] : List Course) ≠ []
    ∧ extract_courses_from_pdf_finalPhase [partialACC] true
      = .error (.nameError "validate_and_fix_course") :=
  ⟨by decide, (c4_name_error [partialACC] true (by decide)).1⟩

/-! ## `validate_and_fix_courses` (lines 116-184) and the retry loop of
`extract_courses_from_page` (lines 186-229)

The Gemini calls and `json.loads` are external collaborators, passed in as
oracles; `none` from a loads oracle models `json.JSONDecodeError`. -/

/-- The markdown-fence cleanup applied to the response text
(lines 174-177 and 198-201): `text[7:-3].strip()` after a ` ```json ` fence,
`text[3:-3].strip()` after a bare ` ``` ` fence. -/
def cleanupFences (s : String) : String :=
  if pyStartswith s "```json" then ((s.drop 7).dropRight 3).trim
  else if pyStartswith s "```" then ((s.drop 3).dropRight 3).trim
  else s

def placeholderTokens : List String := ["unknown", "null", "n/a"]

/-- The per-value test of lines 127:
`value is None or value == "" or str(value).lower() in ["unknown", "null", "n/a"]`. -/
def needsFix (v : PyVal) : Bool :=
  v == PyVal.none || v == PyVal.str "" || decide (pyLower (pyStr v) ∈ placeholderTokens)

/-- The `needs_fixing` scan over every field of every course (lines 124-131). -/
def coursesNeedFixing (courses : List Course) : Bool :=
  courses.any (fun c => c.any (fun kv => needsFix kv.2))

/-- Embedding of `validate_and_fix_courses(courses_json, ...)`: the returned `Nat` is
instrumentation counting the Gemini generation calls made.  `gen` is the
repair `model.generate_content` call (`.error` = a raised transport error,
caught by the `except` on line 182); `loads` is `json.loads` on the cleaned
repair response (`none` = `JSONDecodeError`, also caught there). -/
def validate_and_fix_courses (gen : Except Unit String)
    (loads : String → Option (List Course)) (courses_json : List Course) :
    Nat × List Course :=
  if courses_json.isEmpty then (0, courses_json)
  else if coursesNeedFixing courses_json = false then (0, courses_json)
  else
    match gen with
    | .error _ => (1, courses_json)
    | .ok t =>
      match loads (cleanupFences t.trim) with
      | some fixed => (1, fixed)
      | Option.none => (1, courses_json)

/-- Outcome of one `model.generate_content(prompt)` call. -/
inductive GenResult where
  | text (s : String) : GenResult
  | transportError : GenResult

/-- What a single loop iteration's `try` block does before any `except`
fires. -/
inductive AttemptErr where
  | jsonDecode : AttemptErr
  | transport : AttemptErr
  deriving DecidableEq, Repr

/-- The `try` body of one attempt (lines 190-213): call Gemini, clean the
fences, `json.loads` (with the `isinstance` list wrap folded into `loads`),
then run `validate_and_fix_courses`.  Returns the generation-call count of
the attempt and the courses, or the exception the `except` clauses catch. -/
def attemptOnce (gen : Nat → GenResult) (loads : String → Option (List Course))
    (fixGen : Except Unit String) (fixLoads : String → Option (List Course))
    (i : Nat) : Except AttemptErr (Nat × List Course) :=
  match gen i with
  | .transportError => .error .transport
  | .text t =>
    match loads (cleanupFences t.trim) with
    | Option.none => .error .jsonDecode
    | some courses => .ok (validate_and_fix_courses fixGen fixLoads courses)

/-- The `for attempt in range(max_retries)` loop (lines 189-229), recursing
on the remaining attempts; returns (total generation calls, the sleeps
performed in seconds, the returned course list).  `except
json.JSONDecodeError` sleeps 1 s, the generic `except Exception` sleeps 2 s;
the last attempt returns `[]` instead. -/
def extractGo (gen : Nat → GenResult) (loads : String → Option (List Course))
    (fixGen : Except Unit String) (fixLoads : String → Option (List Course)) :
    Nat → Nat → Nat × List Nat × List Course
  | _, 0 => (0, [], [])
  | attempt, remaining + 1 =>
    match attemptOnce gen loads fixGen fixLoads attempt with
    | .ok (fixCalls, courses) => (1 + fixCalls, [], courses)
    | .error .jsonDecode =>
      if remaining = 0 then (1, [], [])
      else
        let r := extractGo gen loads fixGen fixLoads (attempt + 1) remaining
        (r.1 + 1, 1 :: r.2.1, r.2.2)
    | .error .transport =>
      if remaining = 0 then (1, [], [])
      else
        let r := extractGo gen loads fixGen fixLoads (attempt + 1) remaining
        (r.1 + 1, 2 :: r.2.1, r.2.2)

/-- Embedding of `extract_courses_from_page(...)`; the call site (line 312) uses the
default `max_retries=3`. -/
def extract_courses_from_page (gen : Nat → GenResult)
    (loads : String → Option (List Course)) (fixGen : Except Unit String)
    (fixLoads : String → Option (List Course)) (max_retries : Nat) :
    Nat × List Nat × List Course :=
  extractGo gen loads fixGen fixLoads 0 max_retries

theorem extractGo_all_fail (gen : Nat → GenResult)
    (loads : String → Option (List Course)) (fixGen : Except Unit String)
    (fixLoads : String → Option (List Course)) :
    ∀ r i : Nat, 0 < r →
      (∀ j, i ≤ j → j < i + r → ∃ e, attemptOnce gen loads fixGen fixLoads j = .error e) →
      (extractGo gen loads fixGen fixLoads i r).1 = r
      ∧ (extractGo gen loads fixGen fixLoads i r).2.1.length = r - 1
      ∧ (∀ s ∈ (extractGo gen loads fixGen fixLoads i r).2.1, 1 ≤ s)
      ∧ (extractGo gen loads fixGen fixLoads i r).2.2 = [] := by
  intro r
  induction r with
  | zero => intro i h0; exact absurd h0 (by omega)
  | succ r' ih =>
    intro i _ h
    obtain ⟨e, he⟩ := h i (Nat.le_refl i) (by omega)
    rcases Nat.eq_zero_or_pos r' with hr0 | hrpos
    · subst hr0
      cases e <;> simp [extractGo, he]
    · have hrec := ih (i + 1) hrpos (fun j hj1 hj2 => h j (by omega) (by omega))
      have hne : ¬ r' = 0 := by omega
      cases e <;>
        · simp only [extractGo, he, if_neg hne]
          refine ⟨by rw [hrec.1], by rw [List.length_cons, hrec.2.1]; omega, ?_, hrec.2.2.2⟩
          intro s hs
          rcases List.mem_cons.mp hs with rfl | hs'
          · omega
          · exact hrec.2.2.1 s hs'

/-- C5 (confirmed): If every attempt fails — the generation call raises a
transport error or its response does not parse — then
`extract_courses_from_page` invokes the generation call exactly
`max_retries` times, sleeps at least one second between consecutive attempts
(`max_retries - 1` sleeps of 1 s or 2 s), and returns the empty list as a
normal value: every exception is consumed by the loop's `except` clauses. -/
theorem c5_retry_ceiling (gen : Nat → GenResult)
    (loads : String → Option (List Course)) (fixGen : Except Unit String)
    (fixLoads : String → Option (List Course)) (max_retries : Nat)
    (hN : 0 < max_retries)
    (h : ∀ j, j < max_retries → ∃ e, attemptOnce gen loads fixGen fixLoads j = .error e) :
    (extract_courses_from_page gen loads fixGen fixLoads max_retries).1 = max_retries
    ∧ (extract_courses_from_page gen loads fixGen fixLoads max_retries).2.1.length
      = max_retries - 1
    ∧ (∀ s ∈ (extract_courses_from_page gen loads fixGen fixLoads max_retries).2.1, 1 ≤ s)
    ∧ (extract_courses_from_page gen loads fixGen fixLoads max_retries).2.2 = [] :=
  extractGo_all_fail gen loads fixGen fixLoads max_retries 0 hN
    (fun j _ hj2 => h j (by omega))

/-- Witness for `c5_retry_ceiling`: a generation service that always raises,
`max_retries = 3` (the default used at the call site). -/
theorem c5_retry_ceiling_witness :
    0 < 3
    ∧ (extract_courses_from_page (fun _ => GenResult.transportError)
        (fun _ => Option.none) (Except.error ()) (fun _ => Option.none) 3).1 = 3
    ∧ (extract_courses_from_page (fun _ => GenResult.transportError)
        (fun _ => Option.none) (Except.error ()) (fun _ => Option.none) 3).2.1.length = 3 - 1
    ∧ (extract_courses_from_page (fun _ => GenResult.transportError)
        (fun _ => Option.none) (Except.error ()) (fun _ => Option.none) 3).2.2 = [] :=
  ⟨by decide,
   (c5_retry_ceiling (fun _ => GenResult.transportError) (fun _ => Option.none)
     (Except.error ()) (fun _ => Option.none) 3 (by decide)
     (fun j _ => ⟨.transport, rfl⟩)).1,
   (c5_retry_ceiling (fun _ => GenResult.transportError) (fun _ => Option.none)
     (Except.error ()) (fun _ => Option.none) 3 (by decide)
     (fun j _ => ⟨.transport, rfl⟩)).2.1,
   (c5_retry_ceiling (fun _ => GenResult.transportError) (fun _ => Option.none)
     (Except.error ()) (fun _ => Option.none) 3 (by decide)
     (fun j _ => ⟨.transport, rfl⟩)).2.2.2⟩

/-- C8 (confirmed): `validate_and_fix_courses` makes no repair call and
returns its input unchanged when no field is empty, `None`, or a
case-insensitive placeholder token; when some field is, it makes exactly one
repair generation call, and if that call raises or its response does not
parse, the original (imperfect) list is returned unchanged rather than
discarded. -/
theorem c8_repair_pass (gen : Except Unit String)
    (loads : String → Option (List Course)) (courses : List Course) :
    (coursesNeedFixing courses = false →
      validate_and_fix_courses gen loads courses = (0, courses))
    ∧ (coursesNeedFixing courses = true →
        (validate_and_fix_courses gen loads courses).1 = 1
        ∧ (gen = .error () → (validate_and_fix_courses gen loads courses).2 = courses)
        ∧ (∀ t, gen = .ok t → loads (cleanupFences t.trim) = Option.none →
            (validate_and_fix_courses gen loads courses).2 = courses)) := by
  unfold validate_and_fix_courses
  by_cases hE : courses.isEmpty
  · rw [if_pos hE]
    have hfalse : coursesNeedFixing courses = false := by
      rw [List.isEmpty_iff] at hE
      subst hE
      rfl
    exact ⟨fun _ => rfl, fun htrue => Bool.noConfusion (hfalse.symm.trans htrue)⟩
  · rw [if_neg hE]
    by_cases hF : coursesNeedFixing courses = false
    · rw [if_pos hF]
      exact ⟨fun _ => rfl, fun htrue => Bool.noConfusion (hF.symm.trans htrue)⟩
    · rw [if_neg hF]
      refine ⟨fun hfalse => absurd hfalse hF, fun _ => ?_⟩
      cases gen with
      | error u =>
        exact ⟨rfl, fun _ => rfl, fun t ht => Except.noConfusion ht⟩
      | ok t =>
        rcases hl : loads (cleanupFences t.trim) with _ | fixed
        · exact ⟨by simp [hl], fun hg => Except.noConfusion hg,
            fun t' ht' _ => by simp [hl]⟩
        · refine ⟨by simp [hl], fun hg => Except.noConfusion hg, ?_⟩
          intro t' ht' hl'
          have htt : t = t' := by injection ht'
          rw [← htt] at hl'
          rw [hl'] at hl
          exact Option.noConfusion hl

/-- Witness for `c8_repair_pass`: a course with the placeholder value
"Unknown" triggers exactly one repair call. -/
theorem c8_repair_pass_witness :
    coursesNeedFixing [[("course_desc", PyVal.str "Unknown")]] = true
    ∧ (validate_and_fix_courses (Except.error ()) (fun _ => Option.none)
        [[("course_desc", PyVal.str "Unknown")]]).1 = 1 :=
  ⟨by decide,
   ((c8_repair_pass (Except.error ()) (fun _ => Option.none)
      [[("course_desc", PyVal.str "Unknown")]]).2 (by decide)).1⟩

end CourseText
